import Mathlib

/-!
Verification of the SFT source-analysis engine (Rust, `src-tauri/src`)
against its natural-language specification.

The Rust code is shallowly embedded: strings are Lean `String`s handled
through character lists (so that everything kernel-evaluates), `f32`
confidence scores are modelled as `ℚ` (all scores in the code are sums of
the exact constants 0.05/0.1/0.2/0.3/0.4/0.6 compared against 0.3/0.5/1.0;
the combination logic under scrutiny only compares and sorts them),
`u64`/`usize` are `Nat`, `HashMap` is an association list with
replace-on-insert, and the external MD5 hasher (`md5` crate, wrapped by
`parsers/common/hash.rs`) is an explicit function parameter
`h : String → String`.  Filesystem probing is out of scope: functions that
consume probe results take those results as arguments.
-/

namespace SFT

/-! ## Character/string utilities

The Rust code uses `str::contains`, `str::ends_with`, `str::find`,
`str::to_lowercase`, `char::is_alphanumeric`, `char::is_whitespace`,
`str::eq_ignore_ascii_case`, `str::split`, `str::split_whitespace`,
`str::replace` and `Path::file_stem`.  They are re-implemented here over
`List Char` so that all definitions reduce in the kernel.  `Char.toLower`
in Lean core lower-cases exactly the ASCII range, which coincides with
Rust's `eq_ignore_ascii_case`; for `to_lowercase`/case-insensitive regex
matching the model is exact on ASCII input. -/

/-- Does list `s` start with list `p`? (Rust `str::starts_with`.) -/
def listStarts : List Char → List Char → Bool
  | _, [] => true
  | [], _ :: _ => false
  | a :: as, b :: bs => a == b && listStarts as bs

/-- Does list `s` contain `p` as a contiguous sublist? (Rust `str::contains`.) -/
def listHasSub : List Char → List Char → Bool
  | [], p => p.isEmpty
  | a :: as, p => listStarts (a :: as) p || listHasSub as p

/-- Rust `str::contains` on strings. -/
def strContains (s pat : String) : Bool := listHasSub s.data pat.data

/-- Rust `str::to_lowercase` (exact on ASCII; offsets are character counts). -/
def strLower (s : String) : String := ⟨s.data.map Char.toLower⟩

/-- Rust `str::ends_with`. -/
def strEndsWith (s pat : String) : Bool := listStarts s.data.reverse pat.data.reverse

/-- First index at which `p` occurs in `l`, searching from offset `k`. -/
def findSubAux : List Char → List Char → Nat → Option Nat
  | [], p, k => if p.isEmpty then some k else none
  | a :: as, p, k => if listStarts (a :: as) p then some k else findSubAux as p (k + 1)

/-- Rust `str::find(pat)`: offset of the first occurrence of `pat` in `s`. -/
def strFindSub (s pat : String) : Option Nat := findSubAux s.data pat.data 0

/-- Rust `str::eq_ignore_ascii_case`. -/
def strEqIgnoreAsciiCase (a b : String) : Bool :=
  a.data.map Char.toLower == b.data.map Char.toLower

/-- Index of the last occurrence of `c` in the list, if any. -/
def lastIdxOf (c : Char) : List Char → Option Nat
  | [] => none
  | a :: as =>
    match lastIdxOf c as with
    | some i => some (i + 1)
    | none => if a == c then some 0 else none

/-- Rust `Path::new(name).file_stem()` for a bare file name: the portion
before the final `.`, except that a name with no `.`, or whose only `.`
is the leading character, is returned whole. -/
def fileStem (name : String) : String :=
  match lastIdxOf '.' name.data with
  | none => name
  | some 0 => name
  | some i => ⟨name.data.take i⟩

/-- Rust `str::replace of the backslash character by a forward slash
(`path.replace('\\', "/")` in `determine_file_type`). -/
def replaceBackslashBySlash (s : String) : String :=
  ⟨s.data.map fun c => if c == '\\' then '/' else c⟩

/-- The portion of `s` after its last backslash; `s` itself when there is
none.  Rust `s.rsplit('\\').next().unwrap_or(s)`. -/
def afterLastBackslash (s : String) : String :=
  ⟨s.data.foldl (fun acc c => if c == '\\' then [] else acc ++ [c]) []⟩

/-- Whitespace test used for `\s` and `split_whitespace` (exact on the
ASCII whitespace the parsed sources contain). -/
def isWs (c : Char) : Bool := c.isWhitespace

/-- First whitespace-separated token of a string
(Rust `s.split_whitespace().next().unwrap_or("").trim()`; the trailing
`trim` is the identity on such a token). -/
def firstToken (cs : List Char) : List Char :=
  (cs.dropWhile isWs).takeWhile (fun c => !(isWs c))

end SFT

namespace SFT

/-! ## Data model (`models/`) -/

/-- `models/source_file.rs::SourceFile`. -/
structure SourceFile where
  name : String
  path : String
  absolute_path : String
  extension : String
  size_bytes : Nat
  hash : Option String
  modified_at : Option String
deriving DecidableEq

/-- `models/parse_result.rs::SymbolType`. -/
inductive SymbolType where
  | Class
  | Interface
  | Trait
  | Enum
  | Function
  | Method
  | Variable
  | Constant
  | Property
  | Record
  | Unit
deriving DecidableEq

/-- `models/parse_result.rs::Symbol`.  The Rust field `extends` is a Lean
keyword and is rendered `extends_`. -/
structure Symbol where
  name : String
  qualified_name : String
  symbol_type : SymbolType
  visibility : Option String
  is_abstract : Option Bool
  is_static : Option Bool
  extends_ : Option String
  implements : Option (List String)
  line_start : Option Nat
  line_end : Option Nat
deriving DecidableEq

/-- `models/parse_result.rs::Dependency`.  The Rust field `alias` is a
Lean command keyword and is rendered `alias_`. -/
structure Dependency where
  target : String
  alias_ : Option String
  line_number : Option Nat
  is_interface : Bool
  is_implementation : Bool
deriving DecidableEq

/-- A `serde_json::Value` as far as the embedded code inspects one:
`as_str` either succeeds with a string or fails.  Arrays/objects/numbers,
which the functions verified here never read, collapse into `other`. -/
inductive JVal where
  | str (s : String)
  | other
deriving DecidableEq

/-- `serde_json::Value::as_str`. -/
def JVal.asStr : JVal → Option String
  | .str s => some s
  | .other => none

/-- First value stored under key `k` (HashMap keys are unique, so
association-list lookup models `HashMap::get`). -/
def jLookup (m : List (String × JVal)) (k : String) : Option JVal :=
  match m.find? (fun p => p.1 == k) with
  | some p => some p.2
  | none => none

/-- `models/parse_result.rs::ParsedFile`. -/
structure ParsedFile where
  source : SourceFile
  symbols : List Symbol
  dependencies : List Dependency
  metadata : List (String × JVal)
  warnings : List String
deriving DecidableEq

/-- `ParsedFile::new`. -/
def ParsedFile.new (source : SourceFile) : ParsedFile :=
  { source := source, symbols := [], dependencies := [], metadata := [], warnings := [] }

/-- `models/parse_result.rs::ParseResult`.  `errors: HashMap<String, String>`
is an association list with unique keys, written by `insertAssoc`. -/
structure ParseResult where
  files : List ParsedFile
  errors : List (String × String)
  total_processed : Nat
  total_errors : Nat
deriving DecidableEq

/-- `HashMap::insert`: replace the value when the key is present,
otherwise add the pair. -/
def insertAssoc (m : List (String × String)) (k v : String) : List (String × String) :=
  if m.any (fun p => p.1 == k) then
    m.map (fun p => if p.1 == k then (k, v) else p)
  else
    m ++ [(k, v)]

/-- `ParseResult::new` (`Default`). -/
def ParseResult.new : ParseResult :=
  { files := [], errors := [], total_processed := 0, total_errors := 0 }

/-- `ParseResult::add_parsed_file`. -/
def ParseResult.addParsedFile (r : ParseResult) (f : ParsedFile) : ParseResult :=
  { r with total_processed := r.total_processed + 1, files := r.files ++ [f] }

/-- `ParseResult::add_error`. -/
def ParseResult.addError (r : ParseResult) (path error : String) : ParseResult :=
  { r with
    total_processed := r.total_processed + 1
    total_errors := r.total_errors + 1
    errors := insertAssoc r.errors path error }

/-- `models/unified_node.rs::UnifiedNodeType`. -/
inductive UnifiedNodeType where
  | SourceFile
  | ConfigFile
  | FormFile
  | Module
  | Class
  | Interface
  | Trait
  | Enum
  | Struct
  | Function
  | Method
  | Constructor
  | Destructor
  | Component
  | Form
  | Page
  | View
  | Route
  | Controller
  | Middleware
  | Model
  | Migration
  | Table
  | Query
  | Package
  | Variable
  | Constant
  | Custom (s : String)
deriving DecidableEq

/-- `models/unified_node.rs::NodeMetadata`, restricted to the fields the
embedded generators ever assign; the remaining optional fields of the Rust
struct are never written by either parser strategy and are elided. -/
structure NodeMetadata where
  visibility : Option String := none
  is_abstract : Option Bool := none
  is_static : Option Bool := none
  parent_class : Option String := none
  implements : Option (List String) := none
  extra : List (String × JVal) := []
deriving DecidableEq

/-- `models/unified_node.rs::UnifiedNode` (the optional 3-D position,
never set by the parsers, is elided). -/
structure UnifiedNode where
  id : String
  node_type : UnifiedNodeType
  name : String
  qualified_name : String
  label : String
  size : Nat
  language : String
  file_path : Option String
  line_start : Option Nat
  line_end : Option Nat
  metadata : NodeMetadata
deriving DecidableEq

/-- `UnifiedNode::new`: label and qualified name start as the name, size
starts at 4. -/
def UnifiedNode.new (id : String) (node_type : UnifiedNodeType) (name : String) : UnifiedNode :=
  { id := id
    node_type := node_type
    name := name
    qualified_name := name
    label := name
    size := 4
    language := ""
    file_path := none
    line_start := none
    line_end := none
    metadata := {} }

/-- `UnifiedNode::with_file`. -/
def UnifiedNode.with_file (n : UnifiedNode) (path : String) : UnifiedNode :=
  { n with file_path := some path }

/-- `UnifiedNode::with_language`. -/
def UnifiedNode.with_language (n : UnifiedNode) (lang : String) : UnifiedNode :=
  { n with language := lang }

/-- `UnifiedNode::with_size`. -/
def UnifiedNode.with_size (n : UnifiedNode) (s : Nat) : UnifiedNode :=
  { n with size := s }

/-- `models/unified_edge.rs::UnifiedEdgeType`. -/
inductive UnifiedEdgeType where
  | Uses
  | Extends
  | Implements
  | Includes
  | Contains
  | Defines
  | BelongsTo
  | Calls
  | Instantiates
  | FilePair
  | Routes
  | Renders
  | QueriesTable
  | HasRelation
  | References
  | Custom (s : String)
deriving DecidableEq

/-- The derived Rust `Debug` rendering of an edge type, as interpolated by
`format!` in `UnifiedEdge::new` (escaping inside a custom tag, which never
contains a quote, is elided). -/
def edgeTypeDebug : UnifiedEdgeType → String
  | .Uses => "Uses"
  | .Extends => "Extends"
  | .Implements => "Implements"
  | .Includes => "Includes"
  | .Contains => "Contains"
  | .Defines => "Defines"
  | .BelongsTo => "BelongsTo"
  | .Calls => "Calls"
  | .Instantiates => "Instantiates"
  | .FilePair => "FilePair"
  | .Routes => "Routes"
  | .Renders => "Renders"
  | .QueriesTable => "QueriesTable"
  | .HasRelation => "HasRelation"
  | .References => "References"
  | .Custom s => "Custom(\"" ++ s ++ "\")"

/-- `models/unified_edge.rs::UnifiedEdge` (the `EdgeMetadata` bag, never
written by the embedded generators, is elided). -/
structure UnifiedEdge where
  id : String
  source : String
  target : String
  edge_type : UnifiedEdgeType
  weight : ℚ
  label : Option String
  detail : Option String
  bidirectional : Bool
deriving DecidableEq

/-- `UnifiedEdge::new`: the id is the deterministic string
`source ++ "->" ++ target ++ ":" ++ debug(edge_type)`. -/
def UnifiedEdge.new (source target : String) (edge_type : UnifiedEdgeType) : UnifiedEdge :=
  { id := source ++ "->" ++ target ++ ":" ++ edgeTypeDebug edge_type
    source := source
    target := target
    edge_type := edge_type
    weight := 1
    label := none
    detail := none
    bidirectional := false }

/-- `UnifiedEdge::with_label`. -/
def UnifiedEdge.with_label (e : UnifiedEdge) (label : String) : UnifiedEdge :=
  { e with label := some label }

/-- `models/unified_graph.rs::UnifiedGraph` (graph metadata defaults, not
inspected by any claim, are elided to a unit). -/
structure UnifiedGraph where
  nodes : List UnifiedNode
  edges : List UnifiedEdge
deriving DecidableEq

/-- `core/project_type.rs::ProjectType`. -/
inductive ProjectType where
  | Delphi
  | Laravel
  | NodeJs
  | Php
  | CSharp
  | Java
  | Python
  | Go
  | RustLang
  | Unknown
deriving DecidableEq

/-- `core/detection.rs::DetectionResult`. -/
structure DetectionResult where
  project_type : ProjectType
  confidence : ℚ
  parser_id : String
  marker_files_found : List String
  is_multi_language : Bool
  secondary_types : List (ProjectType × ℚ)
deriving DecidableEq

/-- `DetectionResult::default`. -/
def DetectionResult.defaultResult : DetectionResult :=
  { project_type := .Unknown
    confidence := 0
    parser_id := ""
    marker_files_found := []
    is_multi_language := false
    secondary_types := [] }

/-- `parsers/common/hash.rs::generate_id`, with the external MD5 digest
as the parameter `h`. -/
def generateId (h : String → String) (path : String) : String := h path

/-- The string hashed for a symbol node id in both `generate_nodes`
implementations: `format!("{}::{}", path, name)`. -/
def symbolIdString (path name : String) : String := path ++ "::" ++ name

/-! ## Laravel parser (`parsers/laravel/parser.rs`) -/

/-- `parsers/laravel/parser.rs::LaravelFileType`. -/
inductive LaravelFileType where
  | Controller
  | Model
  | BladeView
  | Route
  | Migration
  | Middleware
  | Request
  | Resource
  | Provider
  | Event
  | Listener
  | Job
  | Policy
  | Command
  | Config
  | Seeder
  | Factory
  | Test
  | InertiaPage
  | Service
  | Repository
  | Action
  | Dto
  | Notification
  | Mailable
  | Observer
  | Scope
  | Rule
  | Cast
  | Contract
  | Exception
  | Enum
  | Trait
  | Interface
  | Php
deriving DecidableEq

/-- `LaravelParser::determine_file_type`: the path rule table, evaluated
top to bottom, first match wins; the generic `Php` kind is the fallback.
Note that the `Controller` rule also matches on the file *name* suffix
`Controller.php`, and the `Inertia` rule checks the already-lower-cased
path for a capital-P variant (dead test, kept verbatim). -/
def determineFileType (file : SourceFile) : LaravelFileType :=
  let name := file.name
  let normalized_path := replaceBackslashBySlash file.path
  let path_lower := strLower normalized_path
  if (strContains path_lower "/resources/js/pages/" || strContains path_lower "/resources/js/Pages/")
      && (strEndsWith name ".vue" || strEndsWith name ".jsx" || strEndsWith name ".tsx"
          || strEndsWith name ".svelte") then .InertiaPage
  else if strEndsWith name ".blade.php" then .BladeView
  else if strContains path_lower "/routes/" && strEndsWith name ".php" then .Route
  else if strContains path_lower "/migrations/" || strContains path_lower "/database/migrations" then .Migration
  else if strContains path_lower "/controllers/" || strEndsWith name "Controller.php" then .Controller
  else if strContains path_lower "/middleware/" then .Middleware
  else if strContains path_lower "/requests/" then .Request
  else if strContains path_lower "/resources/" && !strContains path_lower "/views/"
      && !strContains path_lower "resources/views" then .Resource
  else if strContains path_lower "/providers/" then .Provider
  else if strContains path_lower "/events/" then .Event
  else if strContains path_lower "/listeners/" then .Listener
  else if strContains path_lower "/jobs/" then .Job
  else if strContains path_lower "/policies/" then .Policy
  else if strContains path_lower "/commands/" then .Command
  else if strContains path_lower "/console/" && !strContains path_lower "/console.php" then .Command
  else if strContains path_lower "/config/" then .Config
  else if strContains path_lower "/seeders/" || strContains path_lower "/database/seeders" then .Seeder
  else if strContains path_lower "/factories/" || strContains path_lower "/database/factories" then .Factory
  else if strContains path_lower "/tests/" then .Test
  else if strContains path_lower "/services/" then .Service
  else if strContains path_lower "/repositories/" then .Repository
  else if strContains path_lower "/actions/" then .Action
  else if strContains path_lower "/dto/" || strContains path_lower "/dtos/" then .Dto
  else if strContains path_lower "/notifications/" then .Notification
  else if strContains path_lower "/mail/" then .Mailable
  else if strContains path_lower "/observers/" then .Observer
  else if strContains path_lower "/scopes/" then .Scope
  else if strContains path_lower "/rules/" then .Rule
  else if strContains path_lower "/casts/" then .Cast
  else if strContains path_lower "/contracts/" || strContains path_lower "/interfaces/" then .Contract
  else if strContains path_lower "/exceptions/" then .Exception
  else if strContains path_lower "/enums/" then .Enum
  else if strContains path_lower "/traits/" || strContains path_lower "/concerns/" then .Trait
  else if strContains path_lower "/models/" then .Model
  else .Php

/-- The `extends`-parent table of `refine_file_type` (the parent name is
first stripped to its segment after the last backslash). -/
def extendsRefine (symbol : Symbol) : Option LaravelFileType :=
  match symbol.extends_ with
  | none => none
  | some e =>
    match afterLastBackslash e with
    | "Controller" | "BaseController" | "ResourceController" => some .Controller
    | "Model" | "Authenticatable" | "Pivot" => some .Model
    | "FormRequest" | "Request" => some .Request
    | "JsonResource" | "Resource" | "ResourceCollection" => some .Resource
    | "ServiceProvider" | "AppServiceProvider" | "RouteServiceProvider" => some .Provider
    | "Event" => some .Event
    | "Job" => some .Job
    | "Command" | "ConsoleCommand" => some .Command
    | "Notification" => some .Notification
    | "Mailable" => some .Mailable
    | "Migration" => some .Migration
    | "Seeder" => some .Seeder
    | "Factory" => some .Factory
    | "Exception" | "HttpException" | "ValidationException" => some .Exception
    | "Policy" => some .Policy
    | "Middleware" => some .Middleware
    | "CastsAttributes" => some .Cast
    | _ => none

/-- The `implements`-interface loop of `refine_file_type`: first matching
interface wins; `ShouldQueue` yields `Job` only when the class has no
`extends` parent, otherwise the loop continues. -/
def ifaceRefine (symbol : Symbol) : List String → Option LaravelFileType
  | [] => none
  | i :: rest =>
    match afterLastBackslash i with
    | "ShouldQueue" =>
      if symbol.extends_.isNone then some .Job else ifaceRefine symbol rest
    | "ShouldHandleEventsAfterCommit" | "Listener" => some .Listener
    | "Rule" | "ValidationRule" | "DataAwareRule" | "ValidatorAwareRule" => some .Rule
    | "CastsAttributes" | "CastsInboundAttributes" => some .Cast
    | "MiddlewareInterface" | "Middleware" => some .Middleware
    | _ => ifaceRefine symbol rest

/-- The class-name suffix conventions of `refine_file_type`, in source
order. -/
def suffixRefine (class_name : String) : Option LaravelFileType :=
  if strEndsWith class_name "Service" then some .Service
  else if strEndsWith class_name "Repository" then some .Repository
  else if strEndsWith class_name "Action" then some .Action
  else if strEndsWith class_name "DTO" || strEndsWith class_name "Dto" then some .Dto
  else if strEndsWith class_name "Observer" then some .Observer
  else if strEndsWith class_name "Scope" then some .Scope
  else if strEndsWith class_name "Policy" then some .Policy
  else if strEndsWith class_name "Listener" then some .Listener
  else if strEndsWith class_name "Event" then some .Event
  else if strEndsWith class_name "Job" then some .Job
  else if strEndsWith class_name "Controller" then some .Controller
  else if strEndsWith class_name "Request" then some .Request
  else if strEndsWith class_name "Resource" then some .Resource
  else if strEndsWith class_name "Notification" then some .Notification
  else if strEndsWith class_name "Mail" || strEndsWith class_name "Mailable" then some .Mailable
  else if strEndsWith class_name "Exception" then some .Exception
  else if strEndsWith class_name "Middleware" then some .Middleware
  else if strEndsWith class_name "Cast" then some .Cast
  else if strEndsWith class_name "Rule" then some .Rule
  else if strEndsWith class_name "Provider" then some .Provider
  else if strEndsWith class_name "Seeder" then some .Seeder
  else if strEndsWith class_name "Factory" then some .Factory
  else if strEndsWith class_name "Command" then some .Command
  else none

/-- One iteration of the class loop of `refine_file_type`: extends table,
then implements table, then suffix convention. -/
def classRefine (symbol : Symbol) : Option LaravelFileType :=
  match extendsRefine symbol with
  | some t => some t
  | none =>
    match (match symbol.implements with
           | some l => ifaceRefine symbol l
           | none => none) with
    | some t => some t
    | none => suffixRefine symbol.name

/-- The symbol loop of `refine_file_type`: non-class symbols are skipped;
the first class symbol for which some check matches decides the type. -/
def firstClassRefine : List Symbol → Option LaravelFileType
  | [] => none
  | s :: rest =>
    if s.symbol_type = .Class then
      match classRefine s with
      | some t => some t
      | none => firstClassRefine rest
    else firstClassRefine rest

/-- `LaravelParser::refine_file_type`: a non-generic initial type is
returned unchanged; only the generic `Php` fallback is refined by the
class loop, then by the presence of an interface symbol, then of a trait
symbol. -/
def refineFileType (initial_type : LaravelFileType) (parsed_file : ParsedFile) : LaravelFileType :=
  if initial_type ≠ .Php then initial_type
  else
    match firstClassRefine parsed_file.symbols with
    | some t => t
    | none =>
      if parsed_file.symbols.any (fun s => decide (s.symbol_type = .Interface)) then .Interface
      else if parsed_file.symbols.any (fun s => decide (s.symbol_type = .Trait)) then .Trait
      else initial_type

/-- The node-type table of `LaravelParser::generate_nodes`. -/
def laravelNodeTypeOf : LaravelFileType → UnifiedNodeType
  | .Controller => .Controller
  | .Model => .Model
  | .BladeView => .View
  | .Route => .Route
  | .Migration => .Migration
  | .Middleware => .Middleware
  | .Request => .Custom "request"
  | .Resource => .Custom "resource"
  | .Provider => .Custom "provider"
  | .Event => .Custom "event"
  | .Listener => .Custom "listener"
  | .Job => .Custom "job"
  | .Policy => .Custom "policy"
  | .Command => .Custom "command"
  | .Config => .ConfigFile
  | .Seeder => .Custom "seeder"
  | .Factory => .Custom "factory"
  | .Test => .Custom "test"
  | .InertiaPage => .Component
  | .Service => .Custom "service"
  | .Repository => .Custom "repository"
  | .Action => .Custom "action"
  | .Dto => .Custom "dto"
  | .Notification => .Custom "notification"
  | .Mailable => .Custom "mailable"
  | .Observer => .Custom "observer"
  | .Scope => .Custom "scope"
  | .Rule => .Custom "rule"
  | .Cast => .Custom "cast"
  | .Contract => .Interface
  | .Exception => .Custom "exception"
  | .Enum => .Custom "enum"
  | .Trait => .Trait
  | .Interface => .Interface
  | .Php => .SourceFile

/-- The file-node size table of `LaravelParser::generate_nodes`
("size based on file type importance", not on byte counts). -/
def laravelSizeOf : LaravelFileType → Nat
  | .Controller => 8
  | .Model => 7
  | .Service => 7
  | .Repository => 7
  | .Route => 6
  | .BladeView => 5
  | .InertiaPage => 6
  | .Migration => 5
  | .Middleware => 6
  | .Provider => 6
  | .Action => 6
  | .Request => 5
  | .Resource => 5
  | .Event => 5
  | .Listener => 5
  | .Job => 5
  | .Policy => 5
  | .Command => 5
  | .Notification => 5
  | .Mailable => 5
  | .Observer => 5
  | .Rule => 4
  | .Scope => 4
  | .Cast => 4
  | .Dto => 4
  | .Contract => 5
  | .Interface => 5
  | .Trait => 5
  | .Exception => 4
  | .Enum => 4
  | .Config => 4
  | .Seeder => 4
  | .Factory => 4
  | .Test => 4
  | .Php => 3

/-- The qualified-name assignment of the Laravel file node: `namespace`
metadata when present (and a string), else `view:{view_name}`, else
`inertia:{page_name}`; a present but non-string entry stops the chain
exactly as the nested `if let` does. -/
def laravelQualify (metadata : List (String × JVal)) (node : UnifiedNode) : UnifiedNode :=
  match jLookup metadata "namespace" with
  | some v =>
    match v.asStr with
    | some ns => { node with qualified_name := ns }
    | none => node
  | none =>
    match jLookup metadata "view_name" with
    | some v =>
      match v.asStr with
      | some nm => { node with qualified_name := "view:" ++ nm }
      | none => node
    | none =>
      match jLookup metadata "page_name" with
      | some v =>
        match v.asStr with
        | some nm => { node with qualified_name := "inertia:" ++ nm }
        | none => node
      | none => node

/-- The Laravel file node for one parsed file (the first half of the
per-file loop body of `LaravelParser::generate_nodes`). -/
def laravelFileNode (h : String → String) (parsed_file : ParsedFile) : UnifiedNode :=
  let file_type := refineFileType (determineFileType parsed_file.source) parsed_file
  let file_id := generateId h parsed_file.source.path
  let node :=
    ((UnifiedNode.new file_id (laravelNodeTypeOf file_type) parsed_file.source.name).with_file
        parsed_file.source.path).with_language "php"
  let node := laravelQualify parsed_file.metadata node
  { node with
    size := laravelSizeOf file_type
    metadata := { node.metadata with extra := parsed_file.metadata } }

/-- The symbol loop body of `LaravelParser::generate_nodes`: a node per
class/interface/trait/method/function symbol (`continue` on the rest),
with the class node type refined by the file kind. -/
def laravelSymbolNode (h : String → String) (file_type : LaravelFileType)
    (path : String) (symbol : Symbol) : Option UnifiedNode :=
  let mk : UnifiedNodeType → UnifiedNode := fun t =>
    let node :=
      ((UnifiedNode.new (generateId h (symbolIdString path symbol.name)) t symbol.name).with_file
          path).with_language "php"
    { node with
      qualified_name := symbol.qualified_name
      metadata :=
        { node.metadata with
          visibility := symbol.visibility
          is_abstract := symbol.is_abstract
          is_static := symbol.is_static
          parent_class := symbol.extends_
          implements := symbol.implements } }
  match symbol.symbol_type with
  | .Class =>
    some (mk (if file_type = .Controller then .Controller
              else if file_type = .Model then .Model
              else .Class))
  | .Interface => some (mk .Interface)
  | .Trait => some (mk .Trait)
  | .Method => some (mk .Method)
  | .Function => some (mk .Function)
  | _ => none

/-- `LaravelParser::generate_nodes`: sequential pushes of one file node
and then the qualifying symbol nodes, file by file. -/
def laravelGenerateNodes (h : String → String) (parse_result : ParseResult) : List UnifiedNode :=
  parse_result.files.foldl
    (fun nodes parsed_file =>
      (nodes ++ [laravelFileNode h parsed_file]) ++
        parsed_file.symbols.filterMap
          (laravelSymbolNode h (refineFileType (determineFileType parsed_file.source) parsed_file)
            parsed_file.source.path))
    []

/-! ## Delphi parser (`parsers/delphi/parser.rs`) -/

/-- `DelphiParser::classify_node_type`. -/
def classifyNodeType (file : SourceFile) : UnifiedNodeType :=
  match strLower file.extension with
  | "pas" => .Module
  | "dfm" | "fmx" => .Form
  | "dpr" => .SourceFile
  | "dpk" => .Package
  | _ => .SourceFile

/-- The byte-count size breakpoints of `DelphiParser::generate_nodes`
(`0..=1000 → 2`, `1001..=5000 → 4`, `5001..=20000 → 6`,
`20001..=50000 → 8`, else `10`). -/
def sizeFromBytes (n : Nat) : Nat :=
  if n ≤ 1000 then 2
  else if n ≤ 5000 then 4
  else if n ≤ 20000 then 6
  else if n ≤ 50000 then 8
  else 10

/-- The Delphi file node for one parsed file. -/
def delphiFileNode (h : String → String) (parsed_file : ParsedFile) : UnifiedNode :=
  let file_id := generateId h parsed_file.source.path
  let node :=
    ((UnifiedNode.new file_id (classifyNodeType parsed_file.source) parsed_file.source.name).with_file
        parsed_file.source.path).with_language "delphi"
  node.with_size (sizeFromBytes parsed_file.source.size_bytes)

/-- The symbol loop body of `DelphiParser::generate_nodes`: one `Class`
node of size 4 per class or interface symbol, nothing for other kinds. -/
def delphiSymbolNode (h : String → String) (path : String) (symbol : Symbol) : Option UnifiedNode :=
  if symbol.symbol_type = .Class ∨ symbol.symbol_type = .Interface then
    some
      ((((UnifiedNode.new (generateId h (symbolIdString path symbol.name)) .Class
            symbol.name).with_file path).with_language "delphi").with_size 4)
  else none

/-- `DelphiParser::generate_nodes`. -/
def delphiGenerateNodes (h : String → String) (parse_result : ParseResult) : List UnifiedNode :=
  parse_result.files.foldl
    (fun nodes parsed_file =>
      (nodes ++ [delphiFileNode h parsed_file]) ++
        parsed_file.symbols.filterMap (delphiSymbolNode h parsed_file.source.path))
    []

/-- The `.pas` filter of `detect_file_pairs`
(`f.extension.eq_ignore_ascii_case("pas")`). -/
def isPasF (f : SourceFile) : Bool := strEqIgnoreAsciiCase f.extension "pas"

/-- The form-file filter of `detect_file_pairs` (`.dfm` or `.fmx`,
ASCII-case-insensitively). -/
def isFormF (f : SourceFile) : Bool :=
  strEqIgnoreAsciiCase f.extension "dfm" || strEqIgnoreAsciiCase f.extension "fmx"

/-- `DelphiParser::detect_file_pairs`: filter the `.pas` files and the
`.dfm`/`.fmx` files (extension compared ASCII-case-insensitively), then
pair every `.pas` with every form file whose file-name stem matches
ASCII-case-insensitively.  Directories never enter the comparison. -/
def detectFilePairs (files : List SourceFile) : List (String × String) :=
  let pas_files := files.filter isPasF
  let form_files := files.filter isFormF
  pas_files.flatMap (fun pas =>
    (form_files.filter
        (fun form => strEqIgnoreAsciiCase (fileStem pas.name) (fileStem form.name))).map
      (fun form => (pas.path, form.path)))

/-- `DelphiParser::generate_edges`: one `Uses` edge per recorded
dependency, its target id synthesized by hashing the raw dependency
string with no lookup against the node list (the `nodes` argument of the
Rust method is ignored), followed by one `FilePair` edge per detected
pair. -/
def delphiGenerateEdges (h : String → String) (parse_result : ParseResult) : List UnifiedEdge :=
  let usesEdges := parse_result.files.flatMap (fun parsed_file =>
    parsed_file.dependencies.map (fun dep =>
      (UnifiedEdge.new (generateId h parsed_file.source.path) (generateId h dep.target)
          .Uses).with_label dep.target))
  let pairs := detectFilePairs (parse_result.files.map (fun f => f.source))
  usesEdges ++ pairs.map (fun pq => UnifiedEdge.new (generateId h pq.1) (generateId h pq.2) .FilePair)

/-- `ProjectParser::build_graph` (default implementation of
`parsers/traits.rs`), instantiated for the Delphi strategy: nodes, then
edges over those nodes. -/
def delphiBuildGraph (h : String → String) (parse_result : ParseResult) : UnifiedGraph :=
  { nodes := delphiGenerateNodes h parse_result
    edges := delphiGenerateEdges h parse_result }

/-! ## Project orchestration (`parsers/traits.rs::parse_project`)

`parse_file` is async and closed over the parser and its config; the
orchestration only distinguishes `Ok(parsed)` from `Err(e)`, so it is
modelled as an arbitrary function `pf : SourceFile → Except String ParsedFile`
(the error already rendered by `e.to_string()`).  The progress callback is
a fire-and-forget side channel and does not influence the result. -/

/-- One iteration of the `parse_project` loop. -/
def parseStep (pf : SourceFile → Except String ParsedFile) (result : ParseResult)
    (file : SourceFile) : ParseResult :=
  match pf file with
  | .ok parsed => result.addParsedFile parsed
  | .error e => result.addError file.path e

/-- The accumulated `ParseResult` of the `parse_project` loop. -/
def parseProjectRun (pf : SourceFile → Except String ParsedFile)
    (files : List SourceFile) : ParseResult :=
  files.foldl (parseStep pf) ParseResult.new

/-- `ProjectParser::parse_project` (default implementation): the loop
never aborts, and the function always returns `Ok`. -/
def parseProject (pf : SourceFile → Except String ParsedFile)
    (files : List SourceFile) : Except String ParseResult :=
  Except.ok (parseProjectRun pf files)

/-! ## Delphi uses-clause extraction (`parsers/delphi/pas_parser.rs`)

`extract_uses` runs a lazy dot-all case-insensitive regex over the file
content (`uses`, one or more whitespace characters, a shortest capture,
a semicolon) and, per match, classifies the captured unit list by
comparing the capture's start offset with the first occurrences of the
literal words "interface" and "implementation" in the lower-cased
content.  The regex engine is modelled directly: a match starts at any
case-insensitive occurrence of `uses`, requires at least one whitespace
character, and captures up to the first following semicolon (the lazy
capture after a greedy whitespace run starts right after that run);
scanning resumes after the consumed semicolon.  Offsets are character
offsets (byte offsets in Rust; identical on ASCII input). -/

/-- The scan loop producing `(capture offset, captured text)` pairs.
`fuel` only bounds the recursion; it is instantiated with the content
length plus one, which the strictly increasing position never exhausts. -/
def usesScanAux (lower orig : List Char) : Nat → Nat → List (Nat × String)
  | _, 0 => []
  | p, fuel + 1 =>
    if lower.length ≤ p then []
    else if listStarts (lower.drop p) ['u', 's', 'e', 's'] then
      let j := p + 4
      let w := ((lower.drop j).takeWhile isWs).length
      if w = 0 then usesScanAux lower orig (p + 1) fuel
      else
        match findSubAux (orig.drop (j + w)) [';'] (j + w) with
        | none => usesScanAux lower orig (p + 1) fuel
        | some e =>
          (j + w, ⟨(orig.drop (j + w)).take (e - (j + w))⟩) ::
            usesScanAux lower orig (e + 1) fuel
    else usesScanAux lower orig (p + 1) fuel

/-- All matches of the uses-clause regex over the content. -/
def usesMatches (content : String) : List (Nat × String) :=
  usesScanAux (strLower content).data content.data 0 (content.data.length + 1)

/-- The per-unit filter inside the match loop: split the captured list on
commas, keep the first whitespace-separated token of each piece when it is
non-empty and purely alphanumeric-or-underscore. -/
def unitNames (uses_str : String) : List String :=
  (uses_str.data.splitOn ',').filterMap (fun part =>
    let unit_name := firstToken part
    if !unit_name.isEmpty && unit_name.all (fun c => c.isAlphanum || c == '_') then
      some (⟨unit_name⟩ : String)
    else none)

/-- `PasParser::extract_uses`: dependencies of every uses match, each
flagged by the offset comparison of the source (`match_pos` strictly
between the two word offsets, etc., on the first occurrences of the two
literal words). -/
def extractUses (content : String) : List Dependency :=
  let interface_pos := strFindSub (strLower content) "interface"
  let implementation_pos := strFindSub (strLower content) "implementation"
  (usesMatches content).flatMap (fun m =>
    let is_interface :=
      match interface_pos, implementation_pos with
      | some iface, some impl_ => decide (iface < m.1) && decide (m.1 < impl_)
      | some iface, none => decide (iface < m.1)
      | _, _ => false
    let is_implementation :=
      match implementation_pos with
      | some impl_ => decide (impl_ < m.1)
      | none => false
    (unitNames m.2).map (fun u =>
      { target := u
        alias_ := none
        line_number := none
        is_interface := is_interface
        is_implementation := is_implementation }))

/-! ## Project-type detection (`core/detection.rs`)

The four scoring probes walk the filesystem and are out of scope; the
combination logic of `ProjectDetector::detect` is modelled as a function
of the four probe results `(score, markers found)`. -/

/-- A candidate entry, Rust `(ProjectType, f32, Vec<String>)`. -/
abbrev DetCand := ProjectType × ℚ × List String

/-- The descending-by-score order used by the `sort_by` call of `detect`
(scores are finite sums of constants, never NaN). -/
def rDet (a b : DetCand) : Prop := b.2.1 ≤ a.2.1

instance : DecidableRel rDet := fun a b => inferInstanceAs (Decidable (b.2.1 ≤ a.2.1))

instance : IsTotal DetCand rDet := ⟨fun a b => le_total b.2.1 a.2.1⟩

instance : IsTrans DetCand rDet := ⟨fun _ _ _ h1 h2 => le_trans h2 h1⟩

/-- The candidate set built by `detect`: each positive scorer pushes a
candidate, except that generic PHP is pushed only while the Laravel score
stays below 0.5. -/
def detectionCandidates (delphi laravel nodejs php : ℚ × List String) : List DetCand :=
  (if 0 < delphi.1 then [(ProjectType.Delphi, delphi.1, delphi.2)] else []) ++
  (if 0 < laravel.1 then [(ProjectType.Laravel, laravel.1, laravel.2)] else []) ++
  (if 0 < nodejs.1 then [(ProjectType.NodeJs, nodejs.1, nodejs.2)] else []) ++
  (if 0 < php.1 ∧ laravel.1 < mkRat 1 2 then [(ProjectType.Php, php.1, php.2)] else [])

/-- `ProjectDetector::get_parser_id`. -/
def getParserId : ProjectType → String
  | .Delphi => "delphi"
  | .Laravel => "laravel"
  | .NodeJs => "nodejs"
  | .Php => "php"
  | _ => "unknown"

/-- The sorted candidates other than the winner (what remains after the
`remove(0)` call of `detect`). -/
def detectRemaining (delphi laravel nodejs php : ℚ × List String) : List DetCand :=
  (List.insertionSort rDet (detectionCandidates delphi laravel nodejs php)).tail

/-- `ProjectDetector::detect`, as a function of the four probe results:
sort candidates by score descending (a stable sort, like Rust `sort_by`),
return the default `Unknown`/0.0 result when there is none, otherwise
promote the head and keep every remaining candidate scoring above 0.3 as
a secondary type. -/
def detectCombine (delphi laravel nodejs php : ℚ × List String) : DetectionResult :=
  let scores := detectionCandidates delphi laravel nodejs php
  match List.insertionSort rDet scores with
  | [] => DetectionResult.defaultResult
  | c :: rest =>
    let secondary_types := (rest.filter (fun x => decide (mkRat 3 10 < x.2.1))).map
      (fun x => (x.1, x.2.1))
    { project_type := c.1
      confidence := c.2.1
      parser_id := getParserId c.1
      marker_files_found := c.2.2
      is_multi_language := !secondary_types.isEmpty
      secondary_types := secondary_types }

/-- Is a `parse_file` outcome a success? -/
def exceptIsOk (e : Except String ParsedFile) : Bool :=
  match e with
  | .ok _ => true
  | .error _ => false

/-- The parsed file of a successful outcome. -/
def exceptOk (e : Except String ParsedFile) : Option ParsedFile :=
  match e with
  | .ok p => some p
  | .error _ => none

/-- The error-map effect of one `parse_project` iteration. -/
def errStep (pf : SourceFile → Except String ParsedFile)
    (m : List (String × String)) (file : SourceFile) : List (String × String) :=
  match pf file with
  | .error e => insertAssoc m file.path e
  | .ok _ => m

/-! ## Spec-side definitions

The following definitions transcribe sentences of the specification (not
the source); they exist to be compared against the source-derived
definitions above. -/

/-- Spec wording for the Delphi uses-clause interface flag: the match
offset lies after the "interface" occurrence and before the
"implementation" occurrence, or simply after "interface" when
"implementation" is absent; false when "interface" is absent. -/
def specIsInterfaceFlag (ipos impos : Option Nat) (mpos : Nat) : Bool :=
  match ipos with
  | some iface =>
    decide (iface < mpos) &&
      (match impos with
       | some impl_ => decide (mpos < impl_)
       | none => true)
  | none => false

/-- Spec wording for the implementation flag: the match offset lies after
the "implementation" occurrence; false when the word is absent. -/
def specIsImplementationFlag (impos : Option Nat) (mpos : Nat) : Bool :=
  match impos with
  | some impl_ => decide (impl_ < mpos)
  | none => false

/-- A symbol kind that yields a node in the *Delphi* generator (class or
interface only). -/
def delphiQualifies (s : Symbol) : Bool :=
  decide (s.symbol_type = .Class) || decide (s.symbol_type = .Interface)

/-- A symbol kind that yields a node in the *Laravel* generator
(class/interface/trait/method/function, the spec's qualifying list). -/
def laravelQualifies (s : Symbol) : Bool :=
  decide (s.symbol_type = .Class) || decide (s.symbol_type = .Interface) ||
    decide (s.symbol_type = .Trait) || decide (s.symbol_type = .Method) ||
    decide (s.symbol_type = .Function)

/-! ## Concrete fixtures used by counterexamples and witnesses -/

/-- A PHP file under a `/services/` directory whose name does not carry a
classification suffix. -/
def sfServicesPlain : SourceFile :=
  { name := "Payment.php"
    path := "app/services/Payment.php"
    absolute_path := "/proj/app/services/Payment.php"
    extension := "php"
    size_bytes := 100
    hash := none
    modified_at := none }

/-- A class symbol whose name ends in the `Controller` suffix. -/
def symPaymentController : Symbol :=
  { name := "PaymentController"
    qualified_name := "App/Services/PaymentController"
    symbol_type := .Class
    visibility := none
    is_abstract := none
    is_static := none
    extends_ := none
    implements := none
    line_start := none
    line_end := none }

/-- The plain-named services file parsed with the conflicting class. -/
def pfServicesPlain : ParsedFile :=
  { source := sfServicesPlain
    symbols := [symPaymentController]
    dependencies := []
    metadata := []
    warnings := [] }

/-- The same services file when its *file name* carries the `Controller`
suffix (the common Laravel layout where the file is named after the
class). -/
def sfServicesNamed : SourceFile :=
  { sfServicesPlain with
    name := "PaymentController.php"
    path := "app/services/PaymentController.php"
    absolute_path := "/proj/app/services/PaymentController.php" }

/-- The suffix-named services file parsed with its class. -/
def pfServicesNamed : ParsedFile :=
  { pfServicesPlain with source := sfServicesNamed }

/-- A 100-byte generic PHP helper file with no symbols. -/
def sfHelperPhp : SourceFile :=
  { name := "helpers.php"
    path := "app/helpers.php"
    absolute_path := "/proj/app/helpers.php"
    extension := "php"
    size_bytes := 100
    hash := none
    modified_at := none }

/-- A one-file Laravel parse result over the helper file. -/
def prHelperPhp : ParseResult :=
  { files := [ParsedFile.new sfHelperPhp]
    errors := []
    total_processed := 1
    total_errors := 0 }

/-- A 100-byte Delphi unit file. -/
def sfMainPas : SourceFile :=
  { name := "Main.pas"
    path := "src/Main.pas"
    absolute_path := "/proj/src/Main.pas"
    extension := "pas"
    size_bytes := 100
    hash := none
    modified_at := none }

/-- A method symbol (a kind the Delphi generator skips). -/
def symDoThing : Symbol :=
  { symPaymentController with name := "DoThing", symbol_type := .Method }

/-- A one-file Delphi parse result whose only symbol is a method. -/
def prMethodOnly : ParseResult :=
  { files := [{ ParsedFile.new sfMainPas with symbols := [symDoThing] }]
    errors := []
    total_processed := 1
    total_errors := 0 }

/-- A dependency on a unit for which no file was parsed. -/
def depUnknownUnit : Dependency :=
  { target := "UnknownUnit"
    alias_ := none
    line_number := none
    is_interface := true
    is_implementation := false }

/-- The Delphi unit file parsed with the dangling dependency. -/
def pfMainUses : ParsedFile :=
  { ParsedFile.new sfMainPas with dependencies := [depUnknownUnit] }

/-- A one-file Delphi parse result with a dependency on an unparsed unit. -/
def prUses : ParseResult :=
  { files := [pfMainUses]
    errors := []
    total_processed := 1
    total_errors := 0 }

/-- An upper-cased form file in a different directory, with the stem of
`Main.pas`. -/
def sfMainDfm : SourceFile :=
  { name := "MAIN.DFM"
    path := "forms/MAIN.DFM"
    absolute_path := "/proj/forms/MAIN.DFM"
    extension := "DFM"
    size_bytes := 50
    hash := none
    modified_at := none }

/-- Input files for the `parse_project` witness. -/
def sfUnitA : SourceFile :=
  { sfMainPas with name := "A.pas", path := "src/A.pas", absolute_path := "/proj/src/A.pas" }

/-- The file that the witness parse function rejects. -/
def sfUnitB : SourceFile :=
  { sfMainPas with name := "B.pas", path := "src/B.pas", absolute_path := "/proj/src/B.pas" }

/-- The third witness input file. -/
def sfUnitC : SourceFile :=
  { sfMainPas with name := "C.pas", path := "src/C.pas", absolute_path := "/proj/src/C.pas" }

/-- A parse function failing exactly on `B.pas` (an unreadable file), and
otherwise returning the freshly constructed `ParsedFile` over its input,
as every extractor of the repository does. -/
def pfOneBad : SourceFile → Except String ParsedFile := fun f =>
  if f.name = "B.pas" then Except.error "IO error: unreadable" else Except.ok (ParsedFile.new f)

end SFT

namespace SFT

/-! ## Shared lemmas -/

/-- A fold that appends one block per element equals the flat map of the
blocks. -/
theorem foldl_blocks {α β : Type _} (f : α → β) (g : α → List β) :
    ∀ (l : List α) (init : List β),
      l.foldl (fun acc x => (acc ++ [f x]) ++ g x) init = init ++ l.flatMap (fun x => f x :: g x)
  | [], init => by simp
  | x :: xs, init => by
    rw [List.foldl_cons, foldl_blocks f g xs, List.flatMap_cons]
    simp

/-- The `files` component accumulated by the `parse_project` loop. -/
theorem parseRun_files (pf : SourceFile → Except String ParsedFile) :
    ∀ (files : List SourceFile) (init : ParseResult),
      (files.foldl (parseStep pf) init).files =
        init.files ++ files.filterMap (fun f => exceptOk (pf f))
  | [], init => by simp
  | f :: fs, init => by
    rw [List.foldl_cons, parseRun_files pf fs]
    cases hpf : pf f <;>
      simp [parseStep, hpf, ParseResult.addParsedFile, ParseResult.addError, exceptOk]

/-- The processed counter accumulated by the `parse_project` loop. -/
theorem parseRun_processed (pf : SourceFile → Except String ParsedFile) :
    ∀ (files : List SourceFile) (init : ParseResult),
      (files.foldl (parseStep pf) init).total_processed =
        init.total_processed + files.length
  | [], init => by simp
  | f :: fs, init => by
    rw [List.foldl_cons, parseRun_processed pf fs]
    cases hpf : pf f <;>
      simp [parseStep, hpf, ParseResult.addParsedFile, ParseResult.addError]
    all_goals omega

/-- The error counter accumulated by the `parse_project` loop. -/
theorem parseRun_errcount (pf : SourceFile → Except String ParsedFile) :
    ∀ (files : List SourceFile) (init : ParseResult),
      (files.foldl (parseStep pf) init).total_errors =
        init.total_errors + files.countP (fun f => !exceptIsOk (pf f))
  | [], init => by simp
  | f :: fs, init => by
    rw [List.foldl_cons, parseRun_errcount pf fs]
    cases hpf : pf f <;>
      simp [parseStep, hpf, ParseResult.addParsedFile, ParseResult.addError,
        List.countP_cons, exceptIsOk]
    all_goals omega

/-- The error map accumulated by the `parse_project` loop. -/
theorem parseRun_errors (pf : SourceFile → Except String ParsedFile) :
    ∀ (files : List SourceFile) (init : ParseResult),
      (files.foldl (parseStep pf) init).errors = files.foldl (errStep pf) init.errors
  | [], init => by simp
  | f :: fs, init => by
    rw [List.foldl_cons, parseRun_errors pf fs, List.foldl_cons]
    cases hpf : pf f <;>
      simp [parseStep, hpf, ParseResult.addParsedFile, ParseResult.addError, errStep]

/-- Successful files contribute nothing to the error map. -/
theorem errStep_ok_id (pf : SourceFile → Except String ParsedFile) :
    ∀ (files : List SourceFile), (∀ f ∈ files, exceptIsOk (pf f) = true) →
      ∀ m, files.foldl (errStep pf) m = m
  | [], _, _ => rfl
  | f :: fs, h, m => by
    have hf := h f (by simp)
    rw [List.foldl_cons]
    have hstep : errStep pf m f = m := by
      cases hpf : pf f with
      | ok p => simp [errStep, hpf]
      | error e => rw [hpf] at hf; simp [exceptIsOk] at hf
    rw [hstep]
    exact errStep_ok_id pf fs (fun g hg => h g (by simp [hg])) m

/-- Every successful file contributes exactly one parsed file. -/
theorem filterMap_ok_length (pf : SourceFile → Except String ParsedFile) :
    ∀ (files : List SourceFile), (∀ f ∈ files, exceptIsOk (pf f) = true) →
      (files.filterMap (fun f => exceptOk (pf f))).length = files.length
  | [], _ => rfl
  | f :: fs, h => by
    have hf := h f (by simp)
    have hrec := filterMap_ok_length pf fs (fun g hg => h g (by simp [hg]))
    cases hpf : pf f with
    | ok p =>
      rw [List.filterMap_cons]
      have hok : exceptOk (pf f) = some p := by rw [hpf]; rfl
      rw [hok]
      simp [hrec]
    | error e => rw [hpf] at hf; simp [exceptIsOk] at hf

end SFT

namespace SFT

/-! ## Claim C1 -/

/-- C1 counterexample: a file under a `/services/` directory whose class
name ends in "Controller" does *not* always classify as Service — when
the file is named after its class, the name suffix `Controller.php`
matches inside `determine_file_type` itself (its Controller rule tests
the file name, ahead of the `/services/` path rule), so the file
classifies as Controller. -/
theorem c1_counterexample :
    strContains (strLower (replaceBackslashBySlash sfServicesNamed.path)) "/services/" = true ∧
    symPaymentController ∈ pfServicesNamed.symbols ∧
    symPaymentController.symbol_type = .Class ∧
    strEndsWith symPaymentController.name "Controller" = true ∧
    refineFileType (determineFileType sfServicesNamed) pfServicesNamed = .Controller ∧
    LaravelFileType.Controller ≠ LaravelFileType.Service := by
  decide

/-- C1 (amended): `refine_file_type` keeps every non-generic kind
produced by `determine_file_type`, so class-name-suffix refinement only
ever applies to files whose path (and file name) yields the generic Php
fallback; a file under `/services/` whose *file name* carries no
conflicting suffix keeps Service even when its class name ends in
"Controller", while the suffix convention alone would have yielded
Controller. -/
theorem c1_amended :
    (∀ (t : LaravelFileType) (pf : ParsedFile), t ≠ .Php → refineFileType t pf = t) ∧
    determineFileType sfServicesPlain = .Service ∧
    refineFileType (determineFileType sfServicesPlain) pfServicesPlain = .Service ∧
    refineFileType .Php pfServicesPlain = .Controller := by
  refine ⟨fun t pf ht => ?_, by decide, by decide, by decide⟩
  simp [refineFileType, ht]

/-- C1 witness: the amended theorem applied at the Service kind and the
concrete services file. -/
theorem c1_witness :
    refineFileType .Service pfServicesPlain = .Service :=
  c1_amended.1 .Service pfServicesPlain (by decide)

/-! ## Claim C2 -/

/-- C2: over any file list in which exactly one file fails to parse (and
every parser of the repository returns a `ParsedFile` wrapping its input
file, hypothesis `hsrc`), with the failing path distinct from the others,
`parse_project` returns `Ok`, counts every file, records exactly one
error keyed by the failing path, keeps every other file, and the failing
path occurs in no parsed file. -/
theorem c2_partial_failure (pf : SourceFile → Except String ParsedFile)
    (pre post : List SourceFile) (bad : SourceFile) (msg : String)
    (hsrc : ∀ f p, pf f = .ok p → p.source.path = f.path)
    (hok : ∀ f ∈ pre ++ post, exceptIsOk (pf f) = true)
    (hbad : pf bad = .error msg)
    (hdist : bad.path ∉ (pre ++ post).map (fun f => f.path)) :
    parseProject pf (pre ++ bad :: post) = Except.ok (parseProjectRun pf (pre ++ bad :: post)) ∧
    (parseProjectRun pf (pre ++ bad :: post)).total_processed = (pre ++ bad :: post).length ∧
    (parseProjectRun pf (pre ++ bad :: post)).total_errors = 1 ∧
    (parseProjectRun pf (pre ++ bad :: post)).files.length = (pre ++ bad :: post).length - 1 ∧
    bad.path ∈ (parseProjectRun pf (pre ++ bad :: post)).errors.map (fun p => p.1) ∧
    bad.path ∉ (parseProjectRun pf (pre ++ bad :: post)).files.map (fun p => p.source.path) := by
  have hokPre : ∀ f ∈ pre, exceptIsOk (pf f) = true := fun f hf => hok f (by simp [hf])
  have hokPost : ∀ f ∈ post, exceptIsOk (pf f) = true := fun f hf => hok f (by simp [hf])
  refine ⟨rfl, ?_, ?_, ?_, ?_, ?_⟩
  · rw [parseProjectRun, parseRun_processed]
    simp [ParseResult.new]
  · have h1 : pre.countP (fun f => !exceptIsOk (pf f)) = 0 := by
      rw [List.countP_eq_zero]
      intro f hf
      simp [hokPre f hf]
    have h2 : post.countP (fun f => !exceptIsOk (pf f)) = 0 := by
      rw [List.countP_eq_zero]
      intro f hf
      simp [hokPost f hf]
    have hbadCount : (!exceptIsOk (pf bad)) = true := by rw [hbad]; rfl
    rw [parseProjectRun, parseRun_errcount, List.countP_append, List.countP_cons, h1, h2,
      hbadCount]
    simp [ParseResult.new]
  · rw [parseProjectRun, parseRun_files]
    have hnone : exceptOk (pf bad) = none := by rw [hbad]; rfl
    rw [List.filterMap_append, List.filterMap_cons, hnone]
    simp [ParseResult.new, filterMap_ok_length pf pre hokPre,
      filterMap_ok_length pf post hokPost, Nat.add_comm]
  · rw [parseProjectRun, parseRun_errors]
    rw [List.foldl_append, List.foldl_cons]
    rw [errStep_ok_id pf pre hokPre]
    have hb : errStep pf ParseResult.new.errors bad = [(bad.path, msg)] := by
      simp [errStep, hbad, ParseResult.new, insertAssoc]
    rw [hb, errStep_ok_id pf post hokPost]
    simp
  · rw [parseProjectRun, parseRun_files]
    intro hmem
    simp only [ParseResult.new, List.nil_append, List.mem_map] at hmem
    obtain ⟨parsed, hparsed, hpath⟩ := hmem
    rw [List.mem_filterMap] at hparsed
    obtain ⟨f, hf, hout⟩ := hparsed
    have hfok : pf f = .ok parsed := by
      cases hpf : pf f with
      | ok p => rw [hpf] at hout; cases hout; rfl
      | error e => rw [hpf] at hout; cases hout
    have hfpath : parsed.source.path = f.path := hsrc f parsed hfok
    have hfne : f ≠ bad := by
      intro heq
      rw [heq, hbad] at hfok
      cases hfok
    have hfmem : f ∈ pre ++ post := by
      rcases List.mem_append.mp hf with hl | hr
      · exact List.mem_append.mpr (Or.inl hl)
      · rcases hr with _ | hr'
        · exact absurd rfl hfne
        · exact List.mem_append.mpr (Or.inr (by assumption))
    exact hdist (List.mem_map.mpr ⟨f, hfmem, by rw [← hfpath, hpath]⟩)

/-- C2 witness: three concrete files of which exactly the middle one is
unreadable. -/
theorem c2_witness :
    parseProject pfOneBad ([sfUnitA] ++ sfUnitB :: [sfUnitC]) =
      Except.ok (parseProjectRun pfOneBad ([sfUnitA] ++ sfUnitB :: [sfUnitC])) ∧
    (parseProjectRun pfOneBad ([sfUnitA] ++ sfUnitB :: [sfUnitC])).total_processed =
      ([sfUnitA] ++ sfUnitB :: [sfUnitC]).length ∧
    (parseProjectRun pfOneBad ([sfUnitA] ++ sfUnitB :: [sfUnitC])).total_errors = 1 ∧
    (parseProjectRun pfOneBad ([sfUnitA] ++ sfUnitB :: [sfUnitC])).files.length =
      ([sfUnitA] ++ sfUnitB :: [sfUnitC]).length - 1 ∧
    sfUnitB.path ∈ (parseProjectRun pfOneBad ([sfUnitA] ++ sfUnitB :: [sfUnitC])).errors.map
      (fun p => p.1) ∧
    sfUnitB.path ∉ (parseProjectRun pfOneBad ([sfUnitA] ++ sfUnitB :: [sfUnitC])).files.map
      (fun p => p.source.path) :=
  c2_partial_failure pfOneBad [sfUnitA] [sfUnitC] sfUnitB "IO error: unreadable"
    (by
      intro f p h
      by_cases hc : f.name = "B.pas"
      · simp [pfOneBad, hc] at h
      · simp [pfOneBad, hc] at h
        rw [← h]
        rfl)
    (by decide) rfl (by decide)

end SFT

namespace SFT

/-! ## Claim C3 -/

/-- The qualified-name rewrite of the Laravel file node never touches the
node id. -/
theorem laravelQualify_id (m : List (String × JVal)) (node : UnifiedNode) :
    (laravelQualify m node).id = node.id := by
  unfold laravelQualify
  cases jLookup m "namespace" with
  | some v => cases v <;> simp [JVal.asStr]
  | none =>
    cases jLookup m "view_name" with
    | some v => cases v <;> simp [JVal.asStr]
    | none =>
      cases jLookup m "page_name" with
      | some v => cases v <;> simp [JVal.asStr]
      | none => rfl

/-- Delphi file node: id is the hashed relative path, size follows the
byte-count breakpoints. -/
theorem delphiFileNode_pair (h : String → String) (pf : ParsedFile) :
    ((delphiFileNode h pf).id, (delphiFileNode h pf).size) =
      (h pf.source.path, sizeFromBytes pf.source.size_bytes) := by
  simp [delphiFileNode, UnifiedNode.new, UnifiedNode.with_file, UnifiedNode.with_language,
    UnifiedNode.with_size, generateId]

/-- Laravel file node: id is the hashed relative path, size follows the
type-importance table over the refined file kind. -/
theorem laravelFileNode_pair (h : String → String) (pf : ParsedFile) :
    ((laravelFileNode h pf).id, (laravelFileNode h pf).size) =
      (h pf.source.path, laravelSizeOf (refineFileType (determineFileType pf.source) pf)) := by
  simp [laravelFileNode, laravelQualify_id, UnifiedNode.new, UnifiedNode.with_file,
    UnifiedNode.with_language, generateId]

/-- Delphi symbol nodes: one `(hash(path::name), 4)` entry per class or
interface symbol, nothing else. -/
theorem delphiSymbolNodes_pairs (h : String → String) (path : String) :
    ∀ symbols : List Symbol,
      (symbols.filterMap (delphiSymbolNode h path)).map (fun n => (n.id, n.size)) =
        (symbols.filter delphiQualifies).map (fun s => (h (symbolIdString path s.name), 4))
  | [] => rfl
  | s :: ss => by
    have hrec := delphiSymbolNodes_pairs h path ss
    by_cases hq : s.symbol_type = SymbolType.Class ∨ s.symbol_type = SymbolType.Interface
    · have hqb : delphiQualifies s = true := by
        rcases hq with h1 | h1 <;> simp [delphiQualifies, h1]
      simp [List.filterMap_cons, delphiSymbolNode, if_pos hq, List.filter_cons, hqb,
        UnifiedNode.new, UnifiedNode.with_file, UnifiedNode.with_language,
        UnifiedNode.with_size, generateId, hrec]
    · have hqb : delphiQualifies s = false := by
        simp only [delphiQualifies, Bool.or_eq_false_iff, decide_eq_false_iff_not]
        exact ⟨fun h1 => hq (Or.inl h1), fun h1 => hq (Or.inr h1)⟩
      simp [List.filterMap_cons, delphiSymbolNode, if_neg hq, List.filter_cons, hqb, hrec]

/-- Laravel symbol nodes: one `(hash(path::name), 4)` entry per
class/interface/trait/method/function symbol, nothing else. -/
theorem laravelSymbolNodes_pairs (h : String → String) (path : String)
    (ft : LaravelFileType) :
    ∀ symbols : List Symbol,
      (symbols.filterMap (laravelSymbolNode h ft path)).map (fun n => (n.id, n.size)) =
        (symbols.filter laravelQualifies).map (fun s => (h (symbolIdString path s.name), 4))
  | [] => rfl
  | s :: ss => by
    have hrec := laravelSymbolNodes_pairs h path ft ss
    cases hst : s.symbol_type <;>
      simp [List.filterMap_cons, laravelSymbolNode, hst, List.filter_cons, laravelQualifies,
        UnifiedNode.new, UnifiedNode.with_file, UnifiedNode.with_language, generateId, hrec]

/-- C3 counterexample: the claim fails on both strategies.  A 100-byte
generic PHP file gets size 3 from the Laravel type table while the
claimed byte-count breakpoints give 2; and a Delphi file containing a
method symbol yields only the file node (the Delphi generator emits
symbol nodes for classes and interfaces only), where the claim demands a
file node plus a method node. -/
theorem c3_counterexample :
    (laravelGenerateNodes (fun s => s) prHelperPhp).map (fun n => n.size) = [3] ∧
    sizeFromBytes sfHelperPhp.size_bytes = 2 ∧
    (3 : Nat) ≠ 2 ∧
    (delphiGenerateNodes (fun s => s) prMethodOnly).length = 1 ∧
    symDoThing.symbol_type = .Method ∧
    (1 : Nat) ≠ 2 := by
  decide

/-- C3 (amended): mapped to `(id, size)` pairs, each strategy emits, per
parsed file, exactly one file node whose id hashes the relative path,
followed by one node (of default size 4) per qualifying symbol whose id
hashes `path::name`.  The Delphi strategy sizes file nodes by the fixed
byte-count breakpoints and qualifies only class and interface symbols;
the Laravel strategy sizes file nodes by the refined file kind (3 to 8)
and qualifies class/interface/trait/method/function symbols. -/
theorem c3_amended (h : String → String) (pr : ParseResult) :
    ((delphiGenerateNodes h pr).map (fun n => (n.id, n.size)) =
      pr.files.flatMap (fun pf =>
        (h pf.source.path, sizeFromBytes pf.source.size_bytes) ::
          (pf.symbols.filter delphiQualifies).map
            (fun s => (h (symbolIdString pf.source.path s.name), 4)))) ∧
    ((laravelGenerateNodes h pr).map (fun n => (n.id, n.size)) =
      pr.files.flatMap (fun pf =>
        (h pf.source.path,
            laravelSizeOf (refineFileType (determineFileType pf.source) pf)) ::
          (pf.symbols.filter laravelQualifies).map
            (fun s => (h (symbolIdString pf.source.path s.name), 4)))) := by
  constructor
  · rw [delphiGenerateNodes, foldl_blocks, List.nil_append, List.map_flatMap]
    refine congrArg _ (funext fun pf => ?_)
    rw [List.map_cons, delphiSymbolNodes_pairs]
    have := delphiFileNode_pair h pf
    simp only [Prod.mk.injEq] at this
    simp [this.1, this.2]
  · rw [laravelGenerateNodes, foldl_blocks, List.nil_append, List.map_flatMap]
    refine congrArg _ (funext fun pf => ?_)
    rw [List.map_cons, laravelSymbolNodes_pairs]
    have := laravelFileNode_pair h pf
    simp only [Prod.mk.injEq] at this
    simp [this.1, this.2]

end SFT

namespace SFT

/-! ## Claims C4 and C5 -/

/-- `detect` with a non-empty sorted candidate list promotes the head. -/
theorem detectCombine_eq_of_sort (delphi laravel nodejs php : ℚ × List String)
    (c : DetCand) (rest : List DetCand)
    (hL : List.insertionSort rDet (detectionCandidates delphi laravel nodejs php) = c :: rest) :
    detectCombine delphi laravel nodejs php =
      { project_type := c.1
        confidence := c.2.1
        parser_id := getParserId c.1
        marker_files_found := c.2.2
        is_multi_language :=
          !((rest.filter (fun x => decide (mkRat 3 10 < x.2.1))).map
              (fun x => (x.1, x.2.1))).isEmpty
        secondary_types :=
          (rest.filter (fun x => decide (mkRat 3 10 < x.2.1))).map (fun x => (x.1, x.2.1)) } := by
  simp only [detectCombine, hL]

/-- C4: the combination logic of `detect`.  Generic PHP never enters the
candidate set once the Laravel score reaches 0.5; an empty candidate set
yields the default `Unknown` result with zero confidence; otherwise some
maximal-score candidate wins and supplies the project type, confidence,
markers and the fixed type-to-id parser id. -/
theorem c4_detect (delphi laravel nodejs php : ℚ × List String) :
    (mkRat 1 2 ≤ laravel.1 →
      ProjectType.Php ∉ (detectionCandidates delphi laravel nodejs php).map (fun c => c.1)) ∧
    (¬ 0 < delphi.1 → ¬ 0 < laravel.1 → ¬ 0 < nodejs.1 → ¬ 0 < php.1 →
      detectCombine delphi laravel nodejs php = DetectionResult.defaultResult ∧
      (detectCombine delphi laravel nodejs php).project_type = .Unknown ∧
      (detectCombine delphi laravel nodejs php).confidence = 0) ∧
    (detectionCandidates delphi laravel nodejs php ≠ [] →
      ∃ c ∈ detectionCandidates delphi laravel nodejs php,
        (detectCombine delphi laravel nodejs php).project_type = c.1 ∧
        (detectCombine delphi laravel nodejs php).confidence = c.2.1 ∧
        (detectCombine delphi laravel nodejs php).marker_files_found = c.2.2 ∧
        (detectCombine delphi laravel nodejs php).parser_id = getParserId c.1 ∧
        ∀ c' ∈ detectionCandidates delphi laravel nodejs php, c'.2.1 ≤ c.2.1) := by
  refine ⟨?_, ?_, ?_⟩
  · intro hl hmem
    have hphp : ¬(0 < php.1 ∧ laravel.1 < mkRat 1 2) := fun hc => absurd hc.2 (not_lt.mpr hl)
    simp only [detectionCandidates, if_neg hphp, List.append_nil, List.map_append,
      List.mem_append] at hmem
    split_ifs at hmem <;> simp_all
  · intro h1 h2 h3 h4
    have hemp : detectionCandidates delphi laravel nodejs php = [] := by
      simp only [detectionCandidates, if_neg h1, if_neg h2, if_neg h3,
        if_neg (fun hc : 0 < php.1 ∧ laravel.1 < mkRat 1 2 => h4 hc.1), List.append_nil]
    have hcomb : detectCombine delphi laravel nodejs php = DetectionResult.defaultResult := by
      simp only [detectCombine, hemp]
      rfl
    exact ⟨hcomb, by rw [hcomb]; rfl, by rw [hcomb]; rfl⟩
  · intro hne
    obtain ⟨c, rest, hL⟩ : ∃ c rest,
        List.insertionSort rDet (detectionCandidates delphi laravel nodejs php) = c :: rest := by
      cases hL : List.insertionSort rDet (detectionCandidates delphi laravel nodejs php) with
      | nil =>
        have hperm := List.perm_insertionSort rDet (detectionCandidates delphi laravel nodejs php)
        rw [hL] at hperm
        exact absurd hperm.symm.eq_nil hne
      | cons c rest => exact ⟨c, rest, rfl⟩
    have hperm := List.perm_insertionSort rDet (detectionCandidates delphi laravel nodejs php)
    rw [hL] at hperm
    have hsorted := List.sorted_insertionSort rDet (detectionCandidates delphi laravel nodejs php)
    rw [hL] at hsorted
    have hmax : ∀ b ∈ rest, rDet c b := (List.sorted_cons.mp hsorted).1
    have heq := detectCombine_eq_of_sort delphi laravel nodejs php c rest hL
    refine ⟨c, hperm.subset (List.mem_cons_self c rest), by rw [heq], by rw [heq],
      by rw [heq], by rw [heq], ?_⟩
    intro c' hc'
    rcases List.mem_cons.mp (hperm.mem_iff.mpr hc') with hec | hr
    · rw [hec]
    · exact hmax c' hr

/-- C4 witness: the theorem applied to the Laravel-dominant probe
(0.85 with artisan markers, generic PHP 0.7 suppressed) and to the
all-zero probe. -/
theorem c4_witness :
    (ProjectType.Php ∉
      (detectionCandidates (0, []) (mkRat 85 100, ["composer.json (laravel/framework)", "artisan"])
          (0, []) (mkRat 7 10, ["composer.json", "*.php"])).map (fun c => c.1)) ∧
    (detectCombine (0, []) (0, []) (0, []) (0, []) = DetectionResult.defaultResult ∧
      (detectCombine (0, []) (0, []) (0, []) (0, [])).project_type = .Unknown ∧
      (detectCombine (0, []) (0, []) (0, []) (0, [])).confidence = 0) ∧
    (∃ c ∈ detectionCandidates (0, [])
        (mkRat 85 100, ["composer.json (laravel/framework)", "artisan"])
        (0, []) (mkRat 7 10, ["composer.json", "*.php"]),
      (detectCombine (0, []) (mkRat 85 100, ["composer.json (laravel/framework)", "artisan"])
          (0, []) (mkRat 7 10, ["composer.json", "*.php"])).project_type = c.1 ∧
      (detectCombine (0, []) (mkRat 85 100, ["composer.json (laravel/framework)", "artisan"])
          (0, []) (mkRat 7 10, ["composer.json", "*.php"])).confidence = c.2.1 ∧
      (detectCombine (0, []) (mkRat 85 100, ["composer.json (laravel/framework)", "artisan"])
          (0, []) (mkRat 7 10, ["composer.json", "*.php"])).marker_files_found = c.2.2 ∧
      (detectCombine (0, []) (mkRat 85 100, ["composer.json (laravel/framework)", "artisan"])
          (0, []) (mkRat 7 10, ["composer.json", "*.php"])).parser_id = getParserId c.1 ∧
      ∀ c' ∈ detectionCandidates (0, [])
          (mkRat 85 100, ["composer.json (laravel/framework)", "artisan"])
          (0, []) (mkRat 7 10, ["composer.json", "*.php"]), c'.2.1 ≤ c.2.1) :=
  ⟨(c4_detect (0, []) (mkRat 85 100, ["composer.json (laravel/framework)", "artisan"])
      (0, []) (mkRat 7 10, ["composer.json", "*.php"])).1 (by decide),
   (c4_detect (0, []) (0, []) (0, []) (0, [])).2.1 (by decide) (by decide) (by decide)
     (by decide),
   (c4_detect (0, []) (mkRat 85 100, ["composer.json (laravel/framework)", "artisan"])
      (0, []) (mkRat 7 10, ["composer.json", "*.php"])).2.2 (by decide)⟩

/-- C5: for every probe outcome, `is_multi_language` holds exactly when
`secondary_types` is non-empty, which holds exactly when some non-winning
candidate scores above 0.3. -/
theorem c5_multi_language (delphi laravel nodejs php : ℚ × List String) :
    ((detectCombine delphi laravel nodejs php).is_multi_language = true ↔
      (detectCombine delphi laravel nodejs php).secondary_types ≠ []) ∧
    ((detectCombine delphi laravel nodejs php).secondary_types ≠ [] ↔
      ∃ c ∈ detectRemaining delphi laravel nodejs php, mkRat 3 10 < c.2.1) := by
  cases hL : List.insertionSort rDet (detectionCandidates delphi laravel nodejs php) with
  | nil =>
    have hcomb : detectCombine delphi laravel nodejs php = DetectionResult.defaultResult := by
      simp only [detectCombine, hL]
    have hrem : detectRemaining delphi laravel nodejs php = [] := by
      simp only [detectRemaining, hL, List.tail_nil]
    rw [hcomb, hrem]
    simp [DetectionResult.defaultResult]
  | cons c rest =>
    have heq := detectCombine_eq_of_sort delphi laravel nodejs php c rest hL
    have hrem : detectRemaining delphi laravel nodejs php = rest := by
      simp only [detectRemaining, hL, List.tail_cons]
    rw [heq, hrem]
    constructor
    · simp
    · simp [List.filter_eq_nil_iff]

end SFT

namespace SFT

/-! ## Claim C6 -/

/-- C6: every dependency extracted from a uses match carries exactly the
flags computed from the match offset against the first occurrences of the
literal words "interface" and "implementation" in the lower-cased
content — interface iff after "interface" and (when present) before
"implementation", implementation iff after "implementation" — and in
particular both flags are false whenever neither word occurs. -/
theorem c6_uses_classification (content : String) :
    (extractUses content = (usesMatches content).flatMap (fun m =>
      (unitNames m.2).map (fun u =>
        { target := u
          alias_ := none
          line_number := none
          is_interface :=
            specIsInterfaceFlag (strFindSub (strLower content) "interface")
              (strFindSub (strLower content) "implementation") m.1
          is_implementation :=
            specIsImplementationFlag (strFindSub (strLower content) "implementation") m.1 }))) ∧
    (strFindSub (strLower content) "interface" = none →
      strFindSub (strLower content) "implementation" = none →
      ∀ d ∈ extractUses content, d.is_interface = false ∧ d.is_implementation = false) := by
  have hflags : ∀ m : Nat × String,
      ((match strFindSub (strLower content) "interface",
              strFindSub (strLower content) "implementation" with
        | some iface, some impl_ => decide (iface < m.1) && decide (m.1 < impl_)
        | some iface, none => decide (iface < m.1)
        | _, _ => false) =
        specIsInterfaceFlag (strFindSub (strLower content) "interface")
          (strFindSub (strLower content) "implementation") m.1) ∧
      ((match strFindSub (strLower content) "implementation" with
        | some impl_ => decide (impl_ < m.1)
        | none => false) =
        specIsImplementationFlag (strFindSub (strLower content) "implementation") m.1) := by
    intro m
    cases strFindSub (strLower content) "interface" <;>
      cases strFindSub (strLower content) "implementation" <;>
        simp [specIsInterfaceFlag, specIsImplementationFlag]
  have hmain : extractUses content = (usesMatches content).flatMap (fun m =>
      (unitNames m.2).map (fun u =>
        { target := u
          alias_ := none
          line_number := none
          is_interface :=
            specIsInterfaceFlag (strFindSub (strLower content) "interface")
              (strFindSub (strLower content) "implementation") m.1
          is_implementation :=
            specIsImplementationFlag (strFindSub (strLower content) "implementation") m.1 })) := by
    rw [extractUses]
    refine congrArg _ (funext fun m => ?_)
    rw [(hflags m).1, (hflags m).2]
  refine ⟨hmain, fun hi hm d hd => ?_⟩
  rw [hmain] at hd
  rw [List.mem_flatMap] at hd
  obtain ⟨m, _, hd⟩ := hd
  rw [List.mem_map] at hd
  obtain ⟨u, _, hu⟩ := hd
  rw [← hu]
  simp [specIsInterfaceFlag, specIsImplementationFlag, hi, hm]

/-- C6 witness: a content with a uses clause and neither keyword; the
extracted dependencies carry false flags. -/
theorem c6_witness :
    strFindSub (strLower "uses Foo, Bar;") "interface" = none ∧
    strFindSub (strLower "uses Foo, Bar;") "implementation" = none ∧
    ({ target := "Foo", alias_ := none, line_number := none, is_interface := false,
       is_implementation := false } : Dependency) ∈ extractUses "uses Foo, Bar;" ∧
    ∀ d ∈ extractUses "uses Foo, Bar;", d.is_interface = false ∧ d.is_implementation = false :=
  ⟨by decide, by decide, by decide,
    (c6_uses_classification "uses Foo, Bar;").2 (by decide) (by decide)⟩

/-! ## Claim C7 -/

/-- C7: the Delphi edge generator emits, for every dependency of every
parsed file, a `Uses` edge whose target id hashes the raw dependency
string with no check against the node list; concretely, a file depending
on `UnknownUnit` (which no parsed file provides) yields an edge whose
target id matches no generated node id. -/
theorem c7_dangling_edges :
    (∀ (h : String → String) (pr : ParseResult), ∀ pf ∈ pr.files, ∀ dep ∈ pf.dependencies,
      ∃ e ∈ delphiGenerateEdges h pr,
        e.source = generateId h pf.source.path ∧
        e.target = generateId h dep.target ∧
        e.edge_type = .Uses) ∧
    ((∃ e ∈ delphiGenerateEdges (fun s => s) prUses, e.target = "UnknownUnit") ∧
      "UnknownUnit" ∉ (delphiGenerateNodes (fun s => s) prUses).map (fun n => n.id)) := by
  constructor
  · intro h pr pf hpf dep hdep
    refine ⟨(UnifiedEdge.new (generateId h pf.source.path) (generateId h dep.target)
        .Uses).with_label dep.target, ?_, by simp [UnifiedEdge.new, UnifiedEdge.with_label],
      by simp [UnifiedEdge.new, UnifiedEdge.with_label],
      by simp [UnifiedEdge.new, UnifiedEdge.with_label]⟩
    rw [delphiGenerateEdges]
    refine List.mem_append.mpr (Or.inl ?_)
    rw [List.mem_flatMap]
    exact ⟨pf, hpf, List.mem_map.mpr ⟨dep, hdep, rfl⟩⟩
  · exact ⟨by decide, by decide⟩

/-- C7 witness: the universal part applied to the concrete one-file
result with the dangling `UnknownUnit` dependency. -/
theorem c7_witness :
    ∃ e ∈ delphiGenerateEdges (fun s => s) prUses,
      e.source = generateId (fun s => s) pfMainUses.source.path ∧
      e.target = generateId (fun s => s) depUnknownUnit.target ∧
      e.edge_type = .Uses :=
  c7_dangling_edges.1 (fun s => s) prUses pfMainUses (by decide) depUnknownUnit (by decide)

end SFT

namespace SFT

/-! ## Claim C8 -/

/-- Splitting at a double-colon separator is unambiguous when the left
parts contain no colon. -/
theorem colonSep_inj : ∀ (a c : List Char), ':' ∉ a → ':' ∉ c →
    ∀ b d : List Char, a ++ ':' :: ':' :: b = c ++ ':' :: ':' :: d → a = c ∧ b = d
  | [], [], _, _, b, d, h => ⟨rfl, by simpa using h⟩
  | [], x :: xs, _, hc, b, d, h => by
    simp only [List.nil_append, List.cons_append, List.cons.injEq] at h
    cases h.1
    exact absurd (List.mem_cons_self _ _) hc
  | x :: xs, [], ha, _, b, d, h => by
    simp only [List.nil_append, List.cons_append, List.cons.injEq] at h
    cases h.1
    exact absurd (List.mem_cons_self _ _) ha
  | x :: xs, y :: ys, ha, hc, b, d, h => by
    simp only [List.cons_append, List.cons.injEq] at h
    obtain ⟨hxy, hrest⟩ := h
    have hrec := colonSep_inj xs ys (fun hm => ha (List.mem_cons.mpr (Or.inr hm)))
      (fun hm => hc (List.mem_cons.mpr (Or.inr hm))) b d hrest
    exact ⟨by rw [hxy, hrec.1], hrec.2⟩

/-- The `path::name` encoding is injective on colon-free paths. -/
theorem symbolIdString_inj (p1 n1 p2 n2 : String)
    (h1 : ':' ∉ p1.data) (h2 : ':' ∉ p2.data)
    (heq : symbolIdString p1 n1 = symbolIdString p2 n2) : p1 = p2 ∧ n1 = n2 := by
  have hd : p1.data ++ (':' :: ':' :: n1.data) = p2.data ++ (':' :: ':' :: n2.data) := by
    have hq := congrArg String.data heq
    simpa [symbolIdString, String.data_append] using hq
  obtain ⟨hp, hn⟩ := colonSep_inj p1.data p2.data h1 h2 n1.data n2.data hd
  exact ⟨congrArg String.mk hp, congrArg String.mk hn⟩

/-- C8 counterexample: even under an injective hash, two distinct
(path, symbol-name) pairs can share an id, because the hashed encoding
concatenates with `::` and a path may itself contain `::`. -/
theorem c8_counterexample :
    Function.Injective (fun s : String => s) ∧
    (("a::b", "c") : String × String) ≠ ("a", "b::c") ∧
    generateId (fun s => s) (symbolIdString "a::b" "c") =
      generateId (fun s => s) (symbolIdString "a" "b::c") :=
  ⟨fun _ _ hh => hh, by decide, by decide⟩

/-- C8 (amended): in the pure embedding `detect` and `build_graph` are
functions of their inputs (two calls on equal inputs agree); under an
injective hash, `generate_id` separates distinct paths, and separates
distinct (path, symbol-name) pairs provided the paths are colon-free
(the `path::name` encoding is ambiguous otherwise); and every edge id is
the fixed deterministic string built from source id, target id and edge
type. -/
theorem c8_amended (h : String → String) (hinj : Function.Injective h) :
    (∀ d l n p d' l' n' p' : ℚ × List String, d = d' → l = l' → n = n' → p = p' →
      detectCombine d l n p = detectCombine d' l' n' p') ∧
    (∀ pr pr' : ParseResult, pr = pr' →
      delphiBuildGraph h pr = delphiBuildGraph h pr' ∧
      laravelGenerateNodes h pr = laravelGenerateNodes h pr') ∧
    (∀ p1 p2 : String, p1 ≠ p2 → generateId h p1 ≠ generateId h p2) ∧
    (∀ p1 n1 p2 n2 : String, ':' ∉ p1.data → ':' ∉ p2.data → (p1, n1) ≠ (p2, n2) →
      generateId h (symbolIdString p1 n1) ≠ generateId h (symbolIdString p2 n2)) ∧
    (∀ (s t : String) (ty : UnifiedEdgeType),
      (UnifiedEdge.new s t ty).id = s ++ "->" ++ t ++ ":" ++ edgeTypeDebug ty) := by
  refine ⟨?_, ?_, ?_, ?_, ?_⟩
  · intro d l n p d' l' n' p' hd hl hn hp
    rw [hd, hl, hn, hp]
  · intro pr pr' hpr
    rw [hpr]
    exact ⟨rfl, rfl⟩
  · intro p1 p2 hne heq
    exact hne (hinj heq)
  · intro p1 n1 p2 n2 hc1 hc2 hne heq
    have hinj2 := symbolIdString_inj p1 n1 p2 n2 hc1 hc2 (hinj heq)
    exact hne (by rw [hinj2.1, hinj2.2])
  · intro s t ty
    rfl

/-- C8 witness: the amended theorem applied at the identity hash and
concrete colon-free paths. -/
theorem c8_witness :
    generateId (fun s => s) "a.pas" ≠ generateId (fun s => s) "b.pas" ∧
    generateId (fun s => s) (symbolIdString "a.pas" "TFoo") ≠
      generateId (fun s => s) (symbolIdString "b.pas" "TFoo") ∧
    (UnifiedEdge.new "x" "y" .Uses).id = "x" ++ "->" ++ "y" ++ ":" ++ edgeTypeDebug .Uses :=
  ⟨(c8_amended (fun s => s) (fun _ _ hh => hh)).2.2.1 "a.pas" "b.pas" (by decide),
   (c8_amended (fun s => s) (fun _ _ hh => hh)).2.2.2.1 "a.pas" "TFoo" "b.pas" "TFoo"
     (by decide) (by decide) (by decide),
   (c8_amended (fun s => s) (fun _ _ hh => hh)).2.2.2.2 "x" "y" .Uses⟩

end SFT

namespace SFT

/-! ## Claims C9 and C10 -/

/-- A `.pas` file is not a form file. -/
theorem isPas_isForm_false (f : SourceFile) (hp : isPasF f = true) : isFormF f = false := by
  have hdata : f.extension.data.map Char.toLower = "pas".data.map Char.toLower := by
    simpa [isPasF, strEqIgnoreAsciiCase] using hp
  simp [isFormF, strEqIgnoreAsciiCase, hdata]

/-- A form file is not a `.pas` file. -/
theorem isForm_isPas_false (g : SourceFile) (hf : isFormF g = true) : isPasF g = false := by
  have hor := hf
  simp only [isFormF, Bool.or_eq_true] at hor
  rcases hor with h1 | h1
  · have hdata : g.extension.data.map Char.toLower = "dfm".data.map Char.toLower := by
      simpa [strEqIgnoreAsciiCase] using h1
    simp [isPasF, strEqIgnoreAsciiCase, hdata]
  · have hdata : g.extension.data.map Char.toLower = "fmx".data.map Char.toLower := by
      simpa [strEqIgnoreAsciiCase] using h1
    simp [isPasF, strEqIgnoreAsciiCase, hdata]

/-- C9: a `.pas` file together with one form file of the same stem (any
letter case of names and extensions) yields exactly the one pair linking
their paths; and a `.pas` file with no stem-matching form file in the
input (its path unique in the list) occurs as the source of no pair. -/
theorem c9_file_pairs :
    (∀ f g : SourceFile, isPasF f = true → isFormF g = true →
      strEqIgnoreAsciiCase (fileStem f.name) (fileStem g.name) = true →
      detectFilePairs [f, g] = [(f.path, g.path)]) ∧
    (∀ (files : List SourceFile) (f : SourceFile), f ∈ files → isPasF f = true →
      (∀ g ∈ files, isFormF g = true →
        strEqIgnoreAsciiCase (fileStem f.name) (fileStem g.name) = false) →
      (∀ p ∈ files, p.path = f.path → p = f) →
      ∀ q, (f.path, q) ∉ detectFilePairs files) := by
  constructor
  · intro f g hp hf hstem
    have hgp : isPasF g = false := isForm_isPas_false g hf
    have hff : isFormF f = false := isPas_isForm_false f hp
    simp [detectFilePairs, List.filter_cons, hp, hf, hgp, hff, hstem]
  · intro files f hfmem hp hforms hpath q hmem
    simp only [detectFilePairs] at hmem
    rw [List.mem_flatMap] at hmem
    obtain ⟨p, hpmem, hmem2⟩ := hmem
    rw [List.mem_map] at hmem2
    obtain ⟨g, hgmem, hpq⟩ := hmem2
    obtain ⟨hpin, _⟩ := List.mem_filter.mp hpmem
    obtain ⟨hgfil, hstem⟩ := List.mem_filter.mp hgmem
    obtain ⟨hgin, hgform⟩ := List.mem_filter.mp hgfil
    have hp1 : p.path = f.path := by
      have := congrArg Prod.fst hpq
      simpa using this
    have hpf : p = f := hpath p hpin hp1
    rw [hpf] at hstem
    rw [hforms g hgin hgform] at hstem
    cases hstem

/-- C9 witness: `Main.pas` with an upper-cased `MAIN.DFM` yields exactly
one pair; `Main.pas` alone yields none. -/
theorem c9_witness :
    detectFilePairs [sfMainPas, sfMainDfm] = [(sfMainPas.path, sfMainDfm.path)] ∧
    (sfMainPas.path, "forms/Main.dfm") ∉ detectFilePairs [sfMainPas] :=
  ⟨c9_file_pairs.1 sfMainPas sfMainDfm (by decide) (by decide) (by decide),
   c9_file_pairs.2 [sfMainPas] sfMainPas (by decide) (by decide)
     (by decide) (by decide) "forms/Main.dfm"⟩

/-- C10: pairing depends only on the case-insensitive file-name stems —
every `.pas`/form pair of stem-equal files in the input yields a pair
regardless of their directories, every emitted pair arises that way, and
the number of pairs is the sum, over `.pas` files, of the number of
stem-matching form files (so one `.pas` with k matching forms yields k
pairs). -/
theorem c10_stem_pairing :
    (∀ (files : List SourceFile) (f g : SourceFile), f ∈ files → g ∈ files →
      isPasF f = true → isFormF g = true →
      strEqIgnoreAsciiCase (fileStem f.name) (fileStem g.name) = true →
      (f.path, g.path) ∈ detectFilePairs files) ∧
    (∀ (files : List SourceFile) (pq : String × String), pq ∈ detectFilePairs files →
      ∃ f g : SourceFile, f ∈ files ∧ g ∈ files ∧ isPasF f = true ∧ isFormF g = true ∧
        strEqIgnoreAsciiCase (fileStem f.name) (fileStem g.name) = true ∧
        pq = (f.path, g.path)) ∧
    (∀ files : List SourceFile, (detectFilePairs files).length =
      ((files.filter isPasF).map (fun p =>
        ((files.filter isFormF).filter
          (fun g => strEqIgnoreAsciiCase (fileStem p.name) (fileStem g.name))).length)).sum) := by
  refine ⟨?_, ?_, ?_⟩
  · intro files f g hfmem hgmem hp hf hstem
    simp only [detectFilePairs]
    rw [List.mem_flatMap]
    refine ⟨f, List.mem_filter.mpr ⟨hfmem, hp⟩, ?_⟩
    rw [List.mem_map]
    exact ⟨g, List.mem_filter.mpr ⟨List.mem_filter.mpr ⟨hgmem, hf⟩, hstem⟩, rfl⟩
  · intro files pq hmem
    simp only [detectFilePairs] at hmem
    rw [List.mem_flatMap] at hmem
    obtain ⟨p, hpmem, hmem2⟩ := hmem
    rw [List.mem_map] at hmem2
    obtain ⟨g, hgmem, hpq⟩ := hmem2
    obtain ⟨hpin, hppas⟩ := List.mem_filter.mp hpmem
    obtain ⟨hgfil, hstem⟩ := List.mem_filter.mp hgmem
    obtain ⟨hgin, hgform⟩ := List.mem_filter.mp hgfil
    exact ⟨p, g, hpin, hgin, hppas, hgform, hstem, hpq.symm⟩
  · intro files
    simp only [detectFilePairs]
    rw [List.length_flatMap]
    simp [Function.comp_def]

/-- C10 witness: the universal part applied to a `.pas` file and a form
file lying in different directories (plus an unrelated PHP file). -/
theorem c10_witness :
    (sfMainPas.path, sfMainDfm.path) ∈ detectFilePairs [sfHelperPhp, sfMainPas, sfMainDfm] :=
  c10_stem_pairing.1 [sfHelperPhp, sfMainPas, sfMainDfm] sfMainPas sfMainDfm
    (by decide) (by decide) (by decide) (by decide) (by decide)

end SFT
